import Mathlib

set_option maxHeartbeats 1000000

/-!
Shallow embedding of the TTS (time-temperature superposition) engine of
`src/tts_core.py` (class `TTS`).

Modelling choices:
* Python dicts (insertion-ordered, overwrite-on-assign) are association lists
  `List (ℚ × α)`; `dictSet` models `d[k] = v`, `tableLookup` models `d[k]` /
  `d.get(k)`, `dictKeys` models iteration order over keys.
* Temperatures and raw measured values are `ℚ` (exact idealisation of the
  float keys the code compares with `==`); shift factors `aT = 10**log_aT`
  live in `ℝ` via `Real.rpow`.
* The external SciPy/NumPy solvers (`curve_fit`, `polyfit`) are modelled by an
  explicit outcome parameter: `some c` when the solver returns constants `c`,
  `none` when it raises (non-convergence / iteration cap), matching the
  `try/except` structure of `shift_WLF` / `shift_Arrhenius`.
-/

/-- Lookup of a key in an association list, modelling Python `d[k]` read
access and `k in d` (Python dicts hold each key once; on lists the first
occurrence wins). -/
def tableLookup {α : Type} (l : List (ℚ × α)) (k : ℚ) : Option α :=
  match l with
  | [] => none
  | (k0, v) :: rest => if k0 = k then some v else tableLookup rest k

/-- The keys of an association list, in insertion order, modelling
`for T in d` / `d.keys()`. -/
def dictKeys {α : Type} (l : List (ℚ × α)) : List ℚ :=
  l.map Prod.fst

/-- Python `d[k] = v`: overwrite the value at `k` in place if the key exists,
else append the new entry (insertion order preserved). -/
def dictSet {α : Type} (l : List (ℚ × α)) (k : ℚ) (v : α) : List (ℚ × α) :=
  match l with
  | [] => [(k, v)]
  | (k0, v0) :: rest => if k0 = k then (k0, v) :: rest else (k0, v0) :: dictSet rest k v

/-- `writeAll tbl keys f` models the loop `for T in keys: tbl[T] = f(T)`. -/
def writeAll {α : Type} (tbl : List (ℚ × α)) (keys : List ℚ) (f : ℚ → α) : List (ℚ × α) :=
  keys.foldl (fun t T => dictSet t T (f T)) tbl

@[simp] theorem tableLookup_nil {α : Type} (k : ℚ) :
    tableLookup ([] : List (ℚ × α)) k = none := rfl

@[simp] theorem tableLookup_cons {α : Type} (k0 k : ℚ) (v : α) (rest : List (ℚ × α)) :
    tableLookup ((k0, v) :: rest) k = if k0 = k then some v else tableLookup rest k := rfl

theorem tableLookup_dictSet_self {α : Type} (l : List (ℚ × α)) (k : ℚ) (v : α) :
    tableLookup (dictSet l k v) k = some v := by
  induction l with
  | nil => simp [dictSet, tableLookup]
  | cons hd tl ih =>
    obtain ⟨k0, v0⟩ := hd
    by_cases h : k0 = k <;> simp [dictSet, tableLookup, h, ih]

theorem tableLookup_dictSet_ne {α : Type} (l : List (ℚ × α)) (k k' : ℚ) (v : α)
    (h : k' ≠ k) : tableLookup (dictSet l k v) k' = tableLookup l k' := by
  have hne : ¬ k = k' := fun hc => h hc.symm
  induction l with
  | nil => simp [dictSet, tableLookup, hne]
  | cons hd tl ih =>
    obtain ⟨k0, v0⟩ := hd
    by_cases hk : k0 = k
    · subst hk
      simp [dictSet, tableLookup, hne]
    · by_cases hk' : k0 = k' <;> simp [dictSet, tableLookup, hk, hk', ih, h]

theorem dictSet_idem {α : Type} (l : List (ℚ × α)) (k : ℚ) (v : α) :
    dictSet (dictSet l k v) k v = dictSet l k v := by
  induction l with
  | nil => simp [dictSet]
  | cons hd tl ih =>
    obtain ⟨k0, v0⟩ := hd
    by_cases h : k0 = k <;> simp [dictSet, h, ih]

theorem dictSet_ne_nil {α : Type} (l : List (ℚ × α)) (k : ℚ) (v : α) :
    dictSet l k v ≠ [] := by
  cases l with
  | nil => simp [dictSet]
  | cons hd tl =>
    obtain ⟨k0, v0⟩ := hd
    by_cases h : k0 = k <;> simp [dictSet, h]

theorem tableLookup_writeAll_not_mem {α : Type} (keys : List ℚ) (tbl : List (ℚ × α))
    (f : ℚ → α) (T : ℚ) (h : T ∉ keys) :
    tableLookup (writeAll tbl keys f) T = tableLookup tbl T := by
  induction keys generalizing tbl with
  | nil => rfl
  | cons k ks ih =>
    have hne : T ≠ k := fun hc => h (hc ▸ List.mem_cons_self k ks)
    have hks : T ∉ ks := fun hc => h (List.mem_cons_of_mem k hc)
    calc tableLookup (writeAll (dictSet tbl k (f k)) ks f) T
        = tableLookup (dictSet tbl k (f k)) T := ih _ hks
      _ = tableLookup tbl T := tableLookup_dictSet_ne _ _ _ _ hne

theorem tableLookup_writeAll_mem {α : Type} (keys : List ℚ) (tbl : List (ℚ × α))
    (f : ℚ → α) (T : ℚ) (h : T ∈ keys) :
    tableLookup (writeAll tbl keys f) T = some (f T) := by
  induction keys generalizing tbl with
  | nil => cases h
  | cons k ks ih =>
    by_cases hks : T ∈ ks
    · exact ih _ hks
    · have hTk : T = k := by
        rcases List.mem_cons.mp h with h1 | h2
        · exact h1
        · exact absurd h2 hks
      subst hTk
      calc tableLookup (writeAll (dictSet tbl T (f T)) ks f) T
          = tableLookup (dictSet tbl T (f T)) T := tableLookup_writeAll_not_mem _ _ _ _ hks
        _ = some (f T) := tableLookup_dictSet_self _ _ _

/-- A measured curve at one temperature: parallel arrays of angular frequency
`ω` and storage modulus `G'`, as stored in `self.data[T]`. -/
structure Curve where
  omega : List ℚ
  modulus : List ℚ
deriving DecidableEq

/-- The shift model last applied (`self.shift_method`: `'WLF'` or
`'Arrhenius'`). -/
inductive ShiftMethod where
  | WLF
  | Arrhenius
deriving DecidableEq

/-- The mutable state of a `TTS` instance (fields set in `TTS.__init__`). -/
structure TTSState where
  T_ref : Option ℚ
  data : List (ℚ × Curve)
  shift_factors : List (ℚ × ℝ)
  shift_factors_manual : List (ℚ × ℝ)
  shift_method : Option ShiftMethod
  WLF_C1 : Option ℝ
  WLF_C2 : Option ℝ
  Ea : Option ℝ
  manual_adjustment_done : Bool

/-- A fresh `TTS(T_ref)` instance, as built by `TTS.__init__`. -/
def TTSInit (Tref : Option ℚ) : TTSState :=
  ⟨Tref, [], [], [], none, none, none, none, false⟩

/-- The WLF log-shift `log_aT = -C1 * (T - T_ref) / (C2 + T - T_ref)`
(line 97 of `tts_core.py`, written exactly as the code computes it). -/
noncomputable def wlfLogAT (C1 C2 : ℝ) (Tref T : ℚ) : ℝ :=
  -C1 * ((T : ℝ) - (Tref : ℝ)) / (C2 + (T : ℝ) - (Tref : ℝ))

/-- One entry of the WLF shift-factor loop: `1.0` at the reference
temperature, `10**log_aT` otherwise (lines 93-98 / 106-111). -/
noncomputable def wlfFactor (C1 C2 : ℝ) (Tref : ℚ) (T : ℚ) : ℝ :=
  if T = Tref then 1.0 else (10 : ℝ) ^ wlfLogAT C1 C2 Tref T

/-- `TTS.shift_WLF` after the `T_ref is None` guard.  `fitOutcome` models the
external SciPy `curve_fit` call of `_fit_WLF_constants`: `some (C1f, C2f)`
when the solver converges, `none` when it raises (the `except` path). -/
noncomputable def shift_WLF_core (s : TTSState) (Tref : ℚ) (C1 C2 : ℝ)
    (fit_constants : Bool) (fitOutcome : Option (ℝ × ℝ)) : TTSState :=
  let s1 := { s with shift_method := some ShiftMethod.WLF,
                     shift_factors := writeAll s.shift_factors (dictKeys s.data)
                       (wlfFactor C1 C2 Tref) }
  if fit_constants = true ∧ 2 ≤ ((dictKeys s.data).filter (fun t => t ≠ Tref)).length then
    match fitOutcome with
    | some (C1f, C2f) =>
        { s1 with WLF_C1 := some C1f, WLF_C2 := some C2f,
                  shift_factors := writeAll s1.shift_factors (dictKeys s.data)
                    (wlfFactor C1f C2f Tref) }
    | none => { s1 with WLF_C1 := some C1, WLF_C2 := some C2 }
  else { s1 with WLF_C1 := some C1, WLF_C2 := some C2 }

/-- `TTS.shift_WLF` including the `ValueError` raised when `self.T_ref is
None` (lines 88-89). -/
noncomputable def shift_WLF (s : TTSState) (C1 C2 : ℝ)
    (fit_constants : Bool) (fitOutcome : Option (ℝ × ℝ)) : Except String TTSState :=
  match s.T_ref with
  | none => Except.error "Reference temperature not set"
  | some Tref => Except.ok (shift_WLF_core s Tref C1 C2 fit_constants fitOutcome)

/-- The Arrhenius log-shift `log_aT = (Ea/R) * (1/T_K - 1/T_ref_K) / ln 10`
with `R = 8.314` and `T_K = T + 273.15` (lines 147-155). -/
noncomputable def arrheniusLogAT (Ea : ℝ) (Tref T : ℚ) : ℝ :=
  (Ea / 8.314) * (1 / ((T : ℝ) + 273.15) - 1 / ((Tref : ℝ) + 273.15)) / Real.log 10

/-- One entry of the Arrhenius shift-factor loop (lines 149-156 / 163-170). -/
noncomputable def arrheniusFactor (Ea : ℝ) (Tref : ℚ) (T : ℚ) : ℝ :=
  if T = Tref then 1.0 else (10 : ℝ) ^ arrheniusLogAT Ea Tref T

/-- `TTS.shift_Arrhenius` after the `T_ref is None` guard.  `fitOutcome`
models the external `np.polyfit` call of `_fit_Arrhenius_Ea`: `some Eaf` on
success, `none` when it raises. -/
noncomputable def shift_Arrhenius_core (s : TTSState) (Tref : ℚ) (Ea : ℝ)
    (fit_Ea : Bool) (fitOutcome : Option ℝ) : TTSState :=
  let s1 := { s with shift_method := some ShiftMethod.Arrhenius,
                     shift_factors := writeAll s.shift_factors (dictKeys s.data)
                       (arrheniusFactor Ea Tref) }
  if fit_Ea = true ∧ 2 ≤ ((dictKeys s.data).filter (fun t => t ≠ Tref)).length then
    match fitOutcome with
    | some Eaf =>
        { s1 with Ea := some Eaf,
                  shift_factors := writeAll s1.shift_factors (dictKeys s.data)
                    (arrheniusFactor Eaf Tref) }
    | none => { s1 with Ea := some Ea }
  else { s1 with Ea := some Ea }

/-- `TTS.shift_Arrhenius` including the `ValueError` for an unset `T_ref`
(lines 143-144). -/
noncomputable def shift_Arrhenius (s : TTSState) (Ea : ℝ)
    (fit_Ea : Bool) (fitOutcome : Option ℝ) : Except String TTSState :=
  match s.T_ref with
  | none => Except.error "Reference temperature not set"
  | some Tref => Except.ok (shift_Arrhenius_core s Tref Ea fit_Ea fitOutcome)

/-- `TTS.update_manual_shift(temperature, log_aT_value)` (lines 197-203):
only acts when the temperature is a key of `self.data`; on the first override
the manual table is seeded with a copy of the computed table, then the entry
is overwritten with `10**log_aT_value` and the flag is set. -/
noncomputable def update_manual_shift (s : TTSState) (temperature : ℚ)
    (log_aT_value : ℝ) : TTSState :=
  if temperature ∈ dictKeys s.data then
    let base := if s.shift_factors_manual.isEmpty then s.shift_factors
                else s.shift_factors_manual
    { s with shift_factors_manual := dictSet base temperature ((10 : ℝ) ^ log_aT_value),
             manual_adjustment_done := true }
  else s

/-- The factor table selected by `get_master_curve_data` / `export_to_excel`
(lines 207 and 235): the manual table when `manual_adjustment_done`, else the
computed table. -/
def effectiveFactors (s : TTSState) : List (ℚ × ℝ) :=
  if s.manual_adjustment_done = true then s.shift_factors_manual else s.shift_factors

/-- A curve with real-valued samples, as produced for the JSON payload. -/
structure CurveR where
  omega : List ℝ
  modulus : List ℝ

/-- The `result` dict assembled by `TTS.get_master_curve_data` (lines
205-231): `original` for all temperatures, `shifted` and `shift_factors`
(as `(T, aT, log10 aT)`) only for temperatures present in the factor table. -/
structure MasterCurveData where
  original : List (ℚ × CurveR)
  shifted : List (ℚ × CurveR)
  factors : List (ℚ × ℝ × ℝ)

/-- `TTS.get_master_curve_data` (lines 205-231): shifted `ω = ω * factors[T]`
elementwise, modulus copied unchanged, plus the `(aT, log_aT)` table. -/
noncomputable def get_master_curve_data (s : TTSState) : MasterCurveData :=
  let factors := effectiveFactors s
  { original := s.data.map fun Tc =>
      (Tc.1, CurveR.mk (Tc.2.omega.map (fun w => (w : ℝ)))
                       (Tc.2.modulus.map (fun m => (m : ℝ)))),
    shifted := s.data.filterMap fun Tc =>
      match tableLookup factors Tc.1 with
      | some a => some (Tc.1, CurveR.mk (Tc.2.omega.map (fun w => (w : ℝ) * a))
                                        (Tc.2.modulus.map (fun m => (m : ℝ))))
      | none => none,
    factors := s.data.filterMap fun Tc =>
      match tableLookup factors Tc.1 with
      | some a => some (Tc.1, a, Real.logb 10 a)
      | none => none }

/-- Insertion into a sorted list of temperatures, for `sorted(keys)`. -/
def insertSorted (x : ℚ) : List ℚ → List ℚ
  | [] => [x]
  | y :: ys => if x ≤ y then x :: y :: ys else y :: insertSorted x ys

/-- Python `sorted(...)` over temperature keys (insertion sort). -/
def sortKeys : List ℚ → List ℚ
  | [] => []
  | x :: xs => insertSorted x (sortKeys xs)

theorem mem_insertSorted (x T : ℚ) (l : List ℚ) :
    T ∈ insertSorted x l ↔ T = x ∨ T ∈ l := by
  induction l with
  | nil => simp [insertSorted]
  | cons y ys ih =>
    by_cases h : x ≤ y
    · simp [insertSorted, h]
    · simp [insertSorted, h, ih]
      tauto

theorem mem_sortKeys (T : ℚ) (l : List ℚ) : T ∈ sortKeys l ↔ T ∈ l := by
  induction l with
  | nil => simp [sortKeys]
  | cons x xs ih => simp [sortKeys, mem_insertSorted, ih]

/-- One row of the `'Master Curve Data'` sheet written by
`TTS.export_to_excel` (lines 239-250). -/
structure ExportRow where
  temperature : ℚ
  omega : ℚ
  modulus : ℚ
  aT : ℝ
  log_aT : ℝ
  omega_aT : ℝ

/-- The `'Master Curve Data'` rows of `TTS.export_to_excel` (lines 239-250):
temperatures in ascending order, one row per sample, with
`aT = factors.get(T, 1.0)` and `ω·aT` in the last column.  The per-index loop
`for i in range(len(omega))` is modelled by zipping the equal-length arrays. -/
noncomputable def masterCurveRows (s : TTSState) : List ExportRow :=
  let factors := effectiveFactors s
  (sortKeys (dictKeys s.data)).flatMap fun T =>
    match tableLookup s.data T with
    | none => []
    | some c =>
      let aT := (tableLookup factors T).getD 1.0
      (c.omega.zip c.modulus).map fun om =>
        ExportRow.mk T om.1 om.2 aT (Real.logb 10 aT) ((om.1 : ℝ) * aT)

/-- The `'Shift Factors'` sheet rows of `TTS.export_to_excel` (lines
256-262): `(T, factors[T], log10 factors[T])` for `T in sorted(factors)`. -/
noncomputable def shiftFactorRows (s : TTSState) : List (ℚ × ℝ × ℝ) :=
  let factors := effectiveFactors s
  (sortKeys (dictKeys factors)).filterMap fun T =>
    match tableLookup factors T with
    | some a => some (T, a, Real.logb 10 a)
    | none => none

/-- Outcome of `pd.read_excel` on one file: the call may raise (`failed`,
caught by the `except` at line 72), may yield a frame with fewer than two
columns (`tooFewCols`, line 59), or yields the first two columns as
row-aligned pairs in which `none` models a NaN cell. -/
inductive ReadOutcome where
  | failed
  | tooFewCols
  | okRows (rows : List (Option ℚ × Option ℚ))

/-- One Excel file as seen by `TTS.load_excel`: its stem (file name without
extension, fed to `_extract_temperature`) and the outcome of reading it. -/
structure RawRecord where
  stem : String
  readResult : ReadOutcome

/-- The NaN mask of lines 63-65: keep exactly the rows where neither the ω
nor the modulus cell is NaN. -/
def cleanRows (rows : List (Option ℚ × Option ℚ)) : List (ℚ × ℚ) :=
  rows.filterMap fun r =>
    match r with
    | (some a, some b) => some (a, b)
    | _ => none

/-- Greedy match of `\d+\.?\d*` at the head of the character list, returning
the matched characters and the rest, or `none` if the head is not a digit. -/
def matchUnsigned (cs : List Char) : Option (List Char × List Char) :=
  match cs with
  | [] => none
  | c :: _ =>
    if c.isDigit then
      match cs.dropWhile Char.isDigit with
      | '.' :: r2 => some (cs.takeWhile Char.isDigit ++ '.' :: r2.takeWhile Char.isDigit,
                           r2.dropWhile Char.isDigit)
      | rest => some (cs.takeWhile Char.isDigit, rest)
    else none

/-- Greedy match of the regex `-?\d+\.?\d*` at the head of the character
list.  A leading `-` is consumed only when followed by a digit (as with the
Python regex, which backtracks over the optional sign but then still needs a
digit at the same position). -/
def matchNumAt (cs : List Char) : Option (List Char × List Char) :=
  match cs with
  | [] => none
  | c :: rest =>
    if c = '-' then
      match matchUnsigned rest with
      | some (m, r) => some (c :: m, r)
      | none => none
    else matchUnsigned (c :: rest)

/-- `re.findall(r'-?\d+\.?\d*', s)[0]`: scan left to right for the first
position where the pattern matches and return that (greedy) match. -/
def findNumber : List Char → Option (List Char)
  | [] => none
  | c :: rest =>
    match matchNumAt (c :: rest) with
    | some (m, _) => some m
    | none => findNumber rest

/-- Value of a digit string read in base 10. -/
def natOfDigits (cs : List Char) : ℕ :=
  cs.foldl (fun n c => 10 * n + (c.toNat - Char.toNat '0')) 0

/-- Exact value of `float(m)` for a match `m` of `\d+\.?\d*` (integer part,
optional dot, fractional digits): `ip.fs = (ip·10^|fs| + fs) / 10^|fs|`. -/
def ratOfUnsigned (cs : List Char) : ℚ :=
  let ip := cs.takeWhile Char.isDigit
  let rest := cs.dropWhile Char.isDigit
  match rest with
  | '.' :: fs => mkRat (natOfDigits ip * 10 ^ fs.length + natOfDigits fs) (10 ^ fs.length)
  | _ => (natOfDigits ip : ℚ)

/-- Exact value of `float(m)` for a match `m` of `-?\d+\.?\d*`. -/
def ratOfNumChars (cs : List Char) : ℚ :=
  match cs with
  | '-' :: rest => -(ratOfUnsigned rest)
  | _ => ratOfUnsigned cs

/-- `TTS._extract_temperature` (lines 78-84): the value of the first match of
`-?\d+\.?\d*` in the file stem, or `none` when there is no match (idealising
`float` as exact rational conversion). -/
def extract_temperature (stem : String) : Option ℚ :=
  (findNumber stem.data).map ratOfNumChars

/-- The body of the `for file in sorted(files)` loop of `TTS.load_excel`
(lines 51-73): skip the record when no temperature can be extracted, when
reading raises, or when the frame has fewer than two columns; otherwise store
the NaN-cleaned column pair under the extracted temperature (note: stored
even when the cleaned arrays are empty). -/
def loadStep (d : List (ℚ × Curve)) (r : RawRecord) : List (ℚ × Curve) :=
  match extract_temperature r.stem with
  | none => d
  | some T =>
    match r.readResult with
    | ReadOutcome.failed => d
    | ReadOutcome.tooFewCols => d
    | ReadOutcome.okRows rows =>
      let cleaned := cleanRows rows
      dictSet d T (Curve.mk (cleaned.map Prod.fst) (cleaned.map Prod.snd))

/-- `TTS.load_excel` (lines 41-76) on the sorted file list: raises
`FileNotFoundError` on an empty file list (line 48-49), processes every
record, and raises `ValueError("No valid data loaded")` iff the resulting
mapping is empty (lines 75-76). -/
def load_excel (records : List RawRecord) : Except String (List (ℚ × Curve)) :=
  if records.isEmpty then Except.error "No Excel files found"
  else
    let d := records.foldl loadStep []
    if d.isEmpty then Except.error "No valid data loaded" else Except.ok d

/-! Concrete instances used to witness the theorems below. -/

/-- A small measured curve. -/
def exCurve : Curve := Curve.mk [1, 2] [3, 4]

/-- A two-temperature engine state (reference 25 °C, computed factors already
present, no manual override yet). -/
noncomputable def exState : TTSState :=
  { T_ref := some 25, data := [(25, exCurve), (35, exCurve)],
    shift_factors := [(25, (1 : ℝ)), (35, (2 : ℝ))], shift_factors_manual := [],
    shift_method := some ShiftMethod.WLF, WLF_C1 := some 8.86, WLF_C2 := some 101.6,
    Ea := none, manual_adjustment_done := false }

theorem dictSet_isEmpty_false {α : Type} (l : List (ℚ × α)) (k : ℚ) (v : α) :
    (dictSet l k v).isEmpty = false := by
  cases l with
  | nil => simp [dictSet]
  | cons hd tl =>
    obtain ⟨k0, v0⟩ := hd
    by_cases h : k0 = k <;> simp [dictSet, h]

/-- Claim C9: applying the same manual override `(T, log_aT)` twice in
succession yields exactly the same engine state — in particular the same
effective factor table — as applying it once. -/
theorem manual_override_idempotent (s : TTSState) (T : ℚ) (v : ℝ) :
    update_manual_shift (update_manual_shift s T v) T v = update_manual_shift s T v := by
  by_cases hT : T ∈ dictKeys s.data
  · simp [update_manual_shift, hT, dictSet_isEmpty_false, dictSet_idem]
  · simp [update_manual_shift, hT]

/-- Claim C10: a manual override at a temperature that is not a key of the
dataset is a silent no-op: `update_manual_shift` raises nothing and returns
the state unchanged (manual table, flag and every other field untouched). -/
theorem manual_override_unknown_temperature_noop (s : TTSState) (T : ℚ) (v : ℝ)
    (h : T ∉ dictKeys s.data) : update_manual_shift s T v = s := by
  simp [update_manual_shift, h]

theorem manual_override_unknown_temperature_noop_witness :
    (99 : ℚ) ∉ dictKeys exState.data ∧ update_manual_shift exState 99 0 = exState := by
  have h : (99 : ℚ) ∉ dictKeys exState.data := by
    simp [exState, dictKeys]
  exact ⟨h, manual_override_unknown_temperature_noop exState 99 0 h⟩

/-- Claim C5: when the regression solver fails (`curve_fit` / `polyfit`
raises: outcome `none`), neither shift operation raises; the run is
indistinguishable from a run with fitting disabled — the user-supplied
constants are reported (`WLF_C1`/`WLF_C2`/`Ea`) and the shift-factor table is
the closed form evaluated at those user-supplied constants. -/
theorem fit_failure_falls_back_to_user_constants (s : TTSState) (Tref : ℚ)
    (C1 C2 Ea : ℝ) :
    shift_WLF s C1 C2 true none = shift_WLF s C1 C2 false none
    ∧ shift_Arrhenius s Ea true none = shift_Arrhenius s Ea false none
    ∧ (shift_WLF_core s Tref C1 C2 true none).WLF_C1 = some C1
    ∧ (shift_WLF_core s Tref C1 C2 true none).WLF_C2 = some C2
    ∧ (shift_WLF_core s Tref C1 C2 true none).shift_factors =
        writeAll s.shift_factors (dictKeys s.data) (wlfFactor C1 C2 Tref)
    ∧ (shift_Arrhenius_core s Tref Ea true none).Ea = some Ea
    ∧ (shift_Arrhenius_core s Tref Ea true none).shift_factors =
        writeAll s.shift_factors (dictKeys s.data) (arrheniusFactor Ea Tref) := by
  have hwlf : ∀ Tr : ℚ, shift_WLF_core s Tr C1 C2 true none = shift_WLF_core s Tr C1 C2 false none := by
    intro Tr
    by_cases hc : 2 ≤ ((dictKeys s.data).filter (fun t => t ≠ Tr)).length <;>
      simp [shift_WLF_core, hc]
  have harr : ∀ Tr : ℚ, shift_Arrhenius_core s Tr Ea true none = shift_Arrhenius_core s Tr Ea false none := by
    intro Tr
    by_cases hc : 2 ≤ ((dictKeys s.data).filter (fun t => t ≠ Tr)).length <;>
      simp [shift_Arrhenius_core, hc]
  refine ⟨?_, ?_, ?_, ?_, ?_, ?_, ?_⟩
  · cases hT : s.T_ref with
    | none => simp [shift_WLF, hT]
    | some Tr => simp [shift_WLF, hT, hwlf Tr]
  · cases hT : s.T_ref with
    | none => simp [shift_Arrhenius, hT]
    | some Tr => simp [shift_Arrhenius, hT, harr Tr]
  · rw [hwlf Tref]; simp [shift_WLF_core]
  · rw [hwlf Tref]; simp [shift_WLF_core]
  · rw [hwlf Tref]; simp [shift_WLF_core]
  · rw [harr Tref]; simp [shift_Arrhenius_core]
  · rw [harr Tref]; simp [shift_Arrhenius_core]

/-- A dataset holding only the reference temperature, fresh from ingestion. -/
def singleTempState : TTSState :=
  { T_ref := some 25, data := [(25, exCurve)], shift_factors := [],
    shift_factors_manual := [], shift_method := none, WLF_C1 := none,
    WLF_C2 := none, Ea := none, manual_adjustment_done := false }

/-- Claim C4, counterexample to the claimed error: on a dataset whose only
temperature is the reference temperature, requesting a WLF fit does NOT fail
with any error (the code raises no `InsufficientDataError`); the shift
operation returns successfully with the trivial table `{T_ref: 1.0}` and
silently reports the user-supplied constants as the result. -/
theorem single_temperature_fit_request_succeeds :
    shift_WLF singleTempState 8.86 101.6 true none =
      Except.ok { T_ref := some 25, data := [(25, exCurve)], shift_factors := [(25, 1.0)],
                  shift_factors_manual := [], shift_method := some ShiftMethod.WLF,
                  WLF_C1 := some 8.86, WLF_C2 := some 101.6, Ea := none,
                  manual_adjustment_done := false } := by
  simp [singleTempState, shift_WLF, shift_WLF_core, dictKeys, writeAll, dictSet, wlfFactor]

/-- Claim C4 (amended): with fewer than two non-reference temperatures a
requested fit is silently skipped — no error is raised, the operation
returns successfully, the user-supplied constants are reported, and the
table is the closed form at those constants; in particular a dataset whose
only temperature is `T_ref` yields the trivial table `[(T_ref, 1.0)]`. -/
theorem insufficient_data_fit_silently_skipped (s : TTSState) (Tref : ℚ)
    (C1 C2 Ea : ℝ) (foW : Option (ℝ × ℝ)) (foA : Option ℝ)
    (hTref : s.T_ref = some Tref)
    (hcount : ((dictKeys s.data).filter (fun t => t ≠ Tref)).length < 2) :
    shift_WLF s C1 C2 true foW =
      Except.ok { s with shift_method := some ShiftMethod.WLF,
                         shift_factors := writeAll s.shift_factors (dictKeys s.data)
                           (wlfFactor C1 C2 Tref),
                         WLF_C1 := some C1, WLF_C2 := some C2 }
    ∧ shift_Arrhenius s Ea true foA =
      Except.ok { s with shift_method := some ShiftMethod.Arrhenius,
                         shift_factors := writeAll s.shift_factors (dictKeys s.data)
                           (arrheniusFactor Ea Tref),
                         Ea := some Ea }
    ∧ (dictKeys s.data = [Tref] → s.shift_factors = [] →
        (shift_WLF_core s Tref C1 C2 true foW).shift_factors = [(Tref, 1.0)]) := by
  have hc : ¬ 2 ≤ ((dictKeys s.data).filter (fun t => t ≠ Tref)).length :=
    Nat.not_le.mpr hcount
  have hW : shift_WLF_core s Tref C1 C2 true foW =
      { s with shift_method := some ShiftMethod.WLF,
               shift_factors := writeAll s.shift_factors (dictKeys s.data)
                 (wlfFactor C1 C2 Tref),
               WLF_C1 := some C1, WLF_C2 := some C2 } := by
    simp only [shift_WLF_core]
    rw [if_neg]
    intro hcontra
    exact hc hcontra.2
  have hA : shift_Arrhenius_core s Tref Ea true foA =
      { s with shift_method := some ShiftMethod.Arrhenius,
               shift_factors := writeAll s.shift_factors (dictKeys s.data)
                 (arrheniusFactor Ea Tref),
               Ea := some Ea } := by
    simp only [shift_Arrhenius_core]
    rw [if_neg]
    intro hcontra
    exact hc hcontra.2
  refine ⟨?_, ?_, ?_⟩
  · simp [shift_WLF, hTref, hW]
  · simp [shift_Arrhenius, hTref, hA]
  · intro hkeys hsf
    rw [hW]
    simp [hkeys, hsf, writeAll, dictSet, wlfFactor]

theorem insufficient_data_fit_silently_skipped_witness :
    singleTempState.T_ref = some 25
    ∧ ((dictKeys singleTempState.data).filter (fun t => t ≠ (25 : ℚ))).length < 2
    ∧ (shift_WLF_core singleTempState 25 8.86 101.6 true none).shift_factors = [(25, 1.0)] := by
  refine ⟨rfl, by simp [singleTempState, dictKeys], ?_⟩
  have h := insufficient_data_fit_silently_skipped singleTempState
    25 8.86 101.6 80000 none none rfl (by simp [singleTempState, dictKeys])
  exact h.2.2 (by simp [singleTempState, dictKeys]) rfl

theorem wlfLogAT_eq_claim_form (C1 C2 : ℝ) (Tref T : ℚ) :
    wlfLogAT C1 C2 Tref T =
      -C1 * ((T : ℝ) - (Tref : ℝ)) / (C2 + ((T : ℝ) - (Tref : ℝ))) := by
  unfold wlfLogAT
  rw [add_sub_assoc]

/-- Claim C1: after `shift_WLF` the engine holds reported constants
`(c1, c2)` (equal to the user-supplied `(C1, C2)` whenever no fit was
performed) and its shift-factor table maps every dataset temperature
`T ≠ T_ref` to `aT = 10^(-c1*(T - T_ref)/(c2 + (T - T_ref)))` and the
reference temperature, when present in the dataset, to exactly `1.0`. -/
theorem wlf_shift_factor_table_closed_form (s : TTSState) (Tref : ℚ) (C1 C2 : ℝ)
    (fit : Bool) (fo : Option (ℝ × ℝ)) (T : ℚ) (hT : T ∈ dictKeys s.data) :
    ∃ c1 c2,
      (shift_WLF_core s Tref C1 C2 fit fo).WLF_C1 = some c1
      ∧ (shift_WLF_core s Tref C1 C2 fit fo).WLF_C2 = some c2
      ∧ (fit = false → c1 = C1 ∧ c2 = C2)
      ∧ tableLookup (shift_WLF_core s Tref C1 C2 fit fo).shift_factors T =
          some (if T = Tref then 1.0 else
            (10 : ℝ) ^ (-c1 * ((T : ℝ) - (Tref : ℝ)) / (c2 + ((T : ℝ) - (Tref : ℝ))))) := by
  have hlook : ∀ (tbl : List (ℚ × ℝ)) (a b : ℝ),
      tableLookup (writeAll tbl (dictKeys s.data) (wlfFactor a b Tref)) T =
        some (if T = Tref then 1.0 else
          (10 : ℝ) ^ (-a * ((T : ℝ) - (Tref : ℝ)) / (b + ((T : ℝ) - (Tref : ℝ))))) := by
    intro tbl a b
    rw [tableLookup_writeAll_mem _ _ _ _ hT, wlfFactor, wlfLogAT_eq_claim_form]
  by_cases hc : fit = true ∧ 2 ≤ ((dictKeys s.data).filter (fun t => t ≠ Tref)).length
  · cases fo with
    | none =>
      have he : shift_WLF_core s Tref C1 C2 fit none =
          { s with shift_method := some ShiftMethod.WLF,
                   shift_factors := writeAll s.shift_factors (dictKeys s.data)
                     (wlfFactor C1 C2 Tref),
                   WLF_C1 := some C1, WLF_C2 := some C2 } := by
        simp only [shift_WLF_core]
        rw [if_pos hc]
      exact ⟨C1, C2, by rw [he], by rw [he], fun _ => ⟨rfl, rfl⟩,
        by rw [he]; exact hlook s.shift_factors C1 C2⟩
    | some p =>
      obtain ⟨C1f, C2f⟩ := p
      have he : shift_WLF_core s Tref C1 C2 fit (some (C1f, C2f)) =
          { s with shift_method := some ShiftMethod.WLF,
                   shift_factors := writeAll (writeAll s.shift_factors (dictKeys s.data)
                       (wlfFactor C1 C2 Tref)) (dictKeys s.data) (wlfFactor C1f C2f Tref),
                   WLF_C1 := some C1f, WLF_C2 := some C2f } := by
        simp only [shift_WLF_core]
        rw [if_pos hc]
      exact ⟨C1f, C2f, by rw [he], by rw [he], fun hf => absurd hc.1 (by simp [hf]),
        by rw [he]; exact hlook _ C1f C2f⟩
  · have he : shift_WLF_core s Tref C1 C2 fit fo =
        { s with shift_method := some ShiftMethod.WLF,
                 shift_factors := writeAll s.shift_factors (dictKeys s.data)
                   (wlfFactor C1 C2 Tref),
                 WLF_C1 := some C1, WLF_C2 := some C2 } := by
      simp only [shift_WLF_core]
      rw [if_neg hc]
    exact ⟨C1, C2, by rw [he], by rw [he], fun _ => ⟨rfl, rfl⟩,
      by rw [he]; exact hlook s.shift_factors C1 C2⟩

theorem wlf_shift_factor_table_closed_form_witness :
    (35 : ℚ) ∈ dictKeys exState.data
    ∧ ∃ c1 c2,
      (shift_WLF_core exState 25 8.86 101.6 false none).WLF_C1 = some c1
      ∧ (shift_WLF_core exState 25 8.86 101.6 false none).WLF_C2 = some c2
      ∧ (false = false → c1 = 8.86 ∧ c2 = 101.6)
      ∧ tableLookup (shift_WLF_core exState 25 8.86 101.6 false none).shift_factors 35 =
          some (if (35 : ℚ) = 25 then 1.0 else
            (10 : ℝ) ^ (-c1 * (((35 : ℚ) : ℝ) - ((25 : ℚ) : ℝ)) /
              (c2 + (((35 : ℚ) : ℝ) - ((25 : ℚ) : ℝ))))) := by
  have hT : (35 : ℚ) ∈ dictKeys exState.data := by simp [exState, dictKeys]
  exact ⟨hT, wlf_shift_factor_table_closed_form exState 25 8.86 101.6 false none 35 hT⟩

/-- Claim C2: after `shift_Arrhenius` the engine holds a reported activation
energy `ea` (equal to the user-supplied `Ea` whenever no fit was performed)
and its table maps every dataset temperature `T ≠ T_ref` to
`aT = 10^((ea/R)*(1/T_K - 1/T_ref_K)/ln 10)` with `R = 8.314` and
`T_K = T + 273.15`, and the reference temperature to exactly `1.0`. -/
theorem arrhenius_shift_factor_table_closed_form (s : TTSState) (Tref : ℚ) (Ea : ℝ)
    (fit : Bool) (fo : Option ℝ) (T : ℚ) (hT : T ∈ dictKeys s.data) :
    ∃ ea,
      (shift_Arrhenius_core s Tref Ea fit fo).Ea = some ea
      ∧ (fit = false → ea = Ea)
      ∧ tableLookup (shift_Arrhenius_core s Tref Ea fit fo).shift_factors T =
          some (if T = Tref then 1.0 else
            (10 : ℝ) ^ ((ea / 8.314) * (1 / ((T : ℝ) + 273.15) - 1 / ((Tref : ℝ) + 273.15)) /
              Real.log 10)) := by
  have hlook : ∀ (tbl : List (ℚ × ℝ)) (a : ℝ),
      tableLookup (writeAll tbl (dictKeys s.data) (arrheniusFactor a Tref)) T =
        some (if T = Tref then 1.0 else
          (10 : ℝ) ^ ((a / 8.314) * (1 / ((T : ℝ) + 273.15) - 1 / ((Tref : ℝ) + 273.15)) /
            Real.log 10)) := by
    intro tbl a
    rw [tableLookup_writeAll_mem _ _ _ _ hT, arrheniusFactor, arrheniusLogAT]
  by_cases hc : fit = true ∧ 2 ≤ ((dictKeys s.data).filter (fun t => t ≠ Tref)).length
  · cases fo with
    | none =>
      have he : shift_Arrhenius_core s Tref Ea fit none =
          { s with shift_method := some ShiftMethod.Arrhenius,
                   shift_factors := writeAll s.shift_factors (dictKeys s.data)
                     (arrheniusFactor Ea Tref),
                   Ea := some Ea } := by
        simp only [shift_Arrhenius_core]
        rw [if_pos hc]
      exact ⟨Ea, by rw [he], fun _ => rfl, by rw [he]; exact hlook s.shift_factors Ea⟩
    | some Eaf =>
      have he : shift_Arrhenius_core s Tref Ea fit (some Eaf) =
          { s with shift_method := some ShiftMethod.Arrhenius,
                   shift_factors := writeAll (writeAll s.shift_factors (dictKeys s.data)
                       (arrheniusFactor Ea Tref)) (dictKeys s.data) (arrheniusFactor Eaf Tref),
                   Ea := some Eaf } := by
        simp only [shift_Arrhenius_core]
        rw [if_pos hc]
      exact ⟨Eaf, by rw [he], fun hf => absurd hc.1 (by simp [hf]),
        by rw [he]; exact hlook _ Eaf⟩
  · have he : shift_Arrhenius_core s Tref Ea fit fo =
        { s with shift_method := some ShiftMethod.Arrhenius,
                 shift_factors := writeAll s.shift_factors (dictKeys s.data)
                   (arrheniusFactor Ea Tref),
                 Ea := some Ea } := by
      simp only [shift_Arrhenius_core]
      rw [if_neg hc]
    exact ⟨Ea, by rw [he], fun _ => rfl, by rw [he]; exact hlook s.shift_factors Ea⟩

theorem arrhenius_shift_factor_table_closed_form_witness :
    (35 : ℚ) ∈ dictKeys exState.data
    ∧ ∃ ea,
      (shift_Arrhenius_core exState 25 80000 false none).Ea = some ea
      ∧ (false = false → ea = 80000)
      ∧ tableLookup (shift_Arrhenius_core exState 25 80000 false none).shift_factors 35 =
          some (if (35 : ℚ) = 25 then 1.0 else
            (10 : ℝ) ^ ((ea / 8.314) * (1 / (((35 : ℚ) : ℝ) + 273.15) -
              1 / (((25 : ℚ) : ℝ) + 273.15)) / Real.log 10)) := by
  have hT : (35 : ℚ) ∈ dictKeys exState.data := by simp [exState, dictKeys]
  exact ⟨hT, arrhenius_shift_factor_table_closed_form exState 25 80000 false none 35 hT⟩

theorem effectiveFactors_of_done (s : TTSState) (h : s.manual_adjustment_done = true) :
    effectiveFactors s = s.shift_factors_manual := by
  simp [effectiveFactors, h]

theorem shift_WLF_core_nofit (s : TTSState) (Tref : ℚ) (C1 C2 : ℝ)
    (fo : Option (ℝ × ℝ)) :
    shift_WLF_core s Tref C1 C2 false fo =
      { s with shift_method := some ShiftMethod.WLF,
               shift_factors := writeAll s.shift_factors (dictKeys s.data)
                 (wlfFactor C1 C2 Tref),
               WLF_C1 := some C1, WLF_C2 := some C2 } := by
  simp only [shift_WLF_core]
  rw [if_neg]
  intro hcontra
  exact absurd hcontra.1 (by simp)

theorem shift_WLF_core_preserves_manual (s : TTSState) (Tref : ℚ) (C1 C2 : ℝ)
    (fit : Bool) (fo : Option (ℝ × ℝ)) :
    (shift_WLF_core s Tref C1 C2 fit fo).shift_factors_manual = s.shift_factors_manual
    ∧ (shift_WLF_core s Tref C1 C2 fit fo).manual_adjustment_done = s.manual_adjustment_done := by
  rcases fo with _ | ⟨a, b⟩ <;> (constructor <;> (simp only [shift_WLF_core]; split <;> rfl))

/-- Claim C3 (amended): once a manual override `(T0, v)` has been applied to
a fresh (never-overridden) engine, the effective factor table used for
assembly and export is the manual table: it maps `T0` to the overridden
value `10^v`, and every other temperature to the value the COMPUTED table
had at the moment of the first override (a snapshot) — NOT to the current
computed table; recomputing the WLF table afterwards leaves the effective
table unchanged. -/
theorem manual_override_snapshot_semantics (s : TTSState) (Tref T0 : ℚ) (v : ℝ)
    (C1 C2 : ℝ) (fit : Bool) (fo : Option (ℝ × ℝ))
    (hman : s.shift_factors_manual = []) (hT0 : T0 ∈ dictKeys s.data) :
    effectiveFactors (shift_WLF_core (update_manual_shift s T0 v) Tref C1 C2 fit fo)
      = dictSet s.shift_factors T0 ((10 : ℝ) ^ v)
    ∧ tableLookup
        (effectiveFactors (shift_WLF_core (update_manual_shift s T0 v) Tref C1 C2 fit fo)) T0
      = some ((10 : ℝ) ^ v)
    ∧ (∀ T : ℚ, T ≠ T0 →
        tableLookup
          (effectiveFactors (shift_WLF_core (update_manual_shift s T0 v) Tref C1 C2 fit fo)) T
        = tableLookup s.shift_factors T) := by
  have h1 : update_manual_shift s T0 v =
      { s with shift_factors_manual := dictSet s.shift_factors T0 ((10 : ℝ) ^ v),
               manual_adjustment_done := true } := by
    simp [update_manual_shift, hT0, hman]
  have h2 := shift_WLF_core_preserves_manual (update_manual_shift s T0 v) Tref C1 C2 fit fo
  have hdone : (shift_WLF_core (update_manual_shift s T0 v) Tref C1 C2 fit fo).manual_adjustment_done = true := by
    rw [h2.2, h1]
  have hmanual : (shift_WLF_core (update_manual_shift s T0 v) Tref C1 C2 fit fo).shift_factors_manual
      = dictSet s.shift_factors T0 ((10 : ℝ) ^ v) := by
    rw [h2.1, h1]
  have heff : effectiveFactors (shift_WLF_core (update_manual_shift s T0 v) Tref C1 C2 fit fo)
      = dictSet s.shift_factors T0 ((10 : ℝ) ^ v) := by
    rw [effectiveFactors_of_done _ hdone, hmanual]
  refine ⟨heff, ?_, ?_⟩
  · rw [heff]
    exact tableLookup_dictSet_self _ _ _
  · intro T hne
    rw [heff]
    exact tableLookup_dictSet_ne _ _ _ _ hne

theorem manual_override_snapshot_semantics_witness :
    exState.shift_factors_manual = []
    ∧ (25 : ℚ) ∈ dictKeys exState.data
    ∧ effectiveFactors (shift_WLF_core (update_manual_shift exState 25 0) 25 1 1 false none)
        = dictSet exState.shift_factors 25 ((10 : ℝ) ^ (0 : ℝ)) := by
  have hman : exState.shift_factors_manual = [] := rfl
  have hT0 : (25 : ℚ) ∈ dictKeys exState.data := by simp [exState, dictKeys]
  exact ⟨hman, hT0,
    (manual_override_snapshot_semantics exState 25 25 0 1 1 false none hman hT0).1⟩

/-- Fresh two-temperature state for the C3 counterexample trace. -/
def c3base : TTSState :=
  { T_ref := some 25, data := [(25, exCurve), (35, exCurve)], shift_factors := [],
    shift_factors_manual := [], shift_method := none, WLF_C1 := none,
    WLF_C2 := none, Ea := none, manual_adjustment_done := false }

/-- Step 1 of the trace: WLF shift computed with `C1 = 1`, `C2 = 1`. -/
noncomputable def c3afterCompute : TTSState := shift_WLF_core c3base 25 1 1 false none

/-- Step 2: the user manually overrides temperature 25 with `log_aT = 0`. -/
noncomputable def c3afterOverride : TTSState := update_manual_shift c3afterCompute 25 0

/-- Step 3: the WLF table is recomputed with different constants
(`C1 = 2`, `C2 = 1`); temperature 35 is never overridden. -/
noncomputable def c3afterRecompute : TTSState := shift_WLF_core c3afterOverride 25 2 1 false none

theorem c3_trace_manual_table :
    c3afterRecompute.shift_factors_manual =
      [(25, (10 : ℝ) ^ (0 : ℝ)), (35, (10 : ℝ) ^ wlfLogAT 1 1 25 35)]
    ∧ c3afterRecompute.manual_adjustment_done = true
    ∧ c3afterRecompute.shift_factors =
      [(25, 1.0), (35, (10 : ℝ) ^ wlfLogAT 2 1 25 35)] := by
  have hf25 : wlfFactor 1 1 25 25 = (1.0 : ℝ) := by simp [wlfFactor]
  have hf35 : wlfFactor 1 1 25 35 = (10 : ℝ) ^ wlfLogAT 1 1 25 35 := by
    rw [wlfFactor, if_neg (by norm_num)]
  have hg25 : wlfFactor 2 1 25 25 = (1.0 : ℝ) := by simp [wlfFactor]
  have hg35 : wlfFactor 2 1 25 35 = (10 : ℝ) ^ wlfLogAT 2 1 25 35 := by
    rw [wlfFactor, if_neg (by norm_num)]
  have hcomp : c3afterCompute =
      { T_ref := some 25, data := [(25, exCurve), (35, exCurve)],
        shift_factors := [(25, 1.0), (35, (10 : ℝ) ^ wlfLogAT 1 1 25 35)],
        shift_factors_manual := [], shift_method := some ShiftMethod.WLF,
        WLF_C1 := some 1, WLF_C2 := some 1, Ea := none,
        manual_adjustment_done := false } := by
    rw [c3afterCompute, shift_WLF_core_nofit]
    norm_num [c3base, dictKeys, writeAll, dictSet, hf25, hf35]
  have hov : c3afterOverride =
      { T_ref := some 25, data := [(25, exCurve), (35, exCurve)],
        shift_factors := [(25, 1.0), (35, (10 : ℝ) ^ wlfLogAT 1 1 25 35)],
        shift_factors_manual :=
          [(25, (10 : ℝ) ^ (0 : ℝ)), (35, (10 : ℝ) ^ wlfLogAT 1 1 25 35)],
        shift_method := some ShiftMethod.WLF, WLF_C1 := some 1, WLF_C2 := some 1,
        Ea := none, manual_adjustment_done := true } := by
    rw [c3afterOverride, hcomp]
    norm_num [update_manual_shift, dictKeys, dictSet]
  have hrec : c3afterRecompute =
      { T_ref := some 25, data := [(25, exCurve), (35, exCurve)],
        shift_factors := [(25, 1.0), (35, (10 : ℝ) ^ wlfLogAT 2 1 25 35)],
        shift_factors_manual :=
          [(25, (10 : ℝ) ^ (0 : ℝ)), (35, (10 : ℝ) ^ wlfLogAT 1 1 25 35)],
        shift_method := some ShiftMethod.WLF, WLF_C1 := some 2, WLF_C2 := some 1,
        Ea := none, manual_adjustment_done := true } := by
    rw [c3afterRecompute, hov, shift_WLF_core_nofit]
    norm_num [dictKeys, writeAll, dictSet, hg25, hg35]
  exact ⟨by rw [hrec], by rw [hrec], by rw [hrec]⟩

/-- Claim C3, counterexample: in the trace compute → override(25) →
recompute, temperature 35 was never overridden, yet the effective factor at
35 is the snapshot value `10^(-1·10/(1+10))` and NOT the current computed
value `10^(-2·10/(1+10))`; the claimed per-temperature fallback to the
current computed table is false. -/
theorem manual_override_not_merged_with_recompute :
    tableLookup (effectiveFactors c3afterRecompute) 35
      = some ((10 : ℝ) ^ wlfLogAT 1 1 25 35)
    ∧ tableLookup c3afterRecompute.shift_factors 35
      = some ((10 : ℝ) ^ wlfLogAT 2 1 25 35)
    ∧ tableLookup (effectiveFactors c3afterRecompute) 35
      ≠ tableLookup c3afterRecompute.shift_factors 35 := by
  obtain ⟨hm, hd, hs⟩ := c3_trace_manual_table
  have he : effectiveFactors c3afterRecompute = c3afterRecompute.shift_factors_manual := by
    simp [effectiveFactors, hd]
  have hlt : wlfLogAT 2 1 25 35 < wlfLogAT 1 1 25 35 := by
    unfold wlfLogAT
    push_cast
    norm_num
  have hrp : (10 : ℝ) ^ wlfLogAT 2 1 25 35 < (10 : ℝ) ^ wlfLogAT 1 1 25 35 :=
    (Real.rpow_lt_rpow_left_iff (by norm_num)).mpr hlt
  refine ⟨?_, ?_, ?_⟩
  · rw [he, hm]
    norm_num [tableLookup]
  · rw [hs]
    norm_num [tableLookup]
  · rw [he, hm, hs]
    norm_num [tableLookup]
    exact hrp.ne.symm

/-- Claim C6 (amended): a record that cannot be parsed — no numeric
temperature in its stem, a raised read, or fewer than two columns — is
discarded without aborting the processing of the remaining records; but a
record whose cleaned arrays are empty is STORED with empty arrays, not
discarded; and, for a non-empty file list, ingestion fails with
`ValueError("No valid data loaded")` iff the mapping is empty after all
records are processed. -/
theorem load_excel_skip_and_empty_behavior :
    (∀ (d : List (ℚ × Curve)) (r : RawRecord),
        extract_temperature r.stem = none → loadStep d r = d)
    ∧ (∀ (d : List (ℚ × Curve)) (r : RawRecord),
        r.readResult = ReadOutcome.failed ∨ r.readResult = ReadOutcome.tooFewCols →
        loadStep d r = d)
    ∧ (∀ records : List RawRecord, records ≠ [] →
        (load_excel records = Except.error "No valid data loaded" ↔
          records.foldl loadStep [] = []))
    ∧ (∀ records : List RawRecord, records ≠ [] →
        records.foldl loadStep [] ≠ [] →
        load_excel records = Except.ok (records.foldl loadStep [])) := by
  have hne : ∀ records : List RawRecord, records ≠ [] → records.isEmpty = false := by
    intro records h
    cases records with
    | nil => exact absurd rfl h
    | cons a l => rfl
  refine ⟨?_, ?_, ?_, ?_⟩
  · intro d r h
    simp [loadStep, h]
  · intro d r h
    rcases hx : extract_temperature r.stem with _ | T
    · simp [loadStep, hx]
    · rcases h with h | h <;> simp [loadStep, hx, h]
  · intro records h
    rw [load_excel, if_neg (by simp [hne records h])]
    by_cases hd : records.foldl loadStep [] = []
    · simp [hd]
    · have : (records.foldl loadStep []).isEmpty = false := by
        cases hfd : records.foldl loadStep [] with
        | nil => exact absurd hfd hd
        | cons a l => rfl
      simp [this, hd]
  · intro records h hd
    have : (records.foldl loadStep []).isEmpty = false := by
      cases hfd : records.foldl loadStep [] with
      | nil => exact absurd hfd hd
      | cons a l => rfl
    rw [load_excel, if_neg (by simp [hne records h])]
    simp [this]

theorem load_excel_skip_and_empty_behavior_witness :
    extract_temperature "abc" = none
    ∧ loadStep [(25, exCurve)] (RawRecord.mk "abc" ReadOutcome.failed) = [(25, exCurve)]
    ∧ ([RawRecord.mk "abc" ReadOutcome.failed] : List RawRecord) ≠ []
    ∧ (load_excel [RawRecord.mk "abc" ReadOutcome.failed] = Except.error "No valid data loaded" ↔
        ([RawRecord.mk "abc" ReadOutcome.failed] : List RawRecord).foldl loadStep [] = []) := by
  have h1 : extract_temperature "abc" = none := by decide
  refine ⟨h1, ?_, by simp, ?_⟩
  · exact load_excel_skip_and_empty_behavior.1 _ _ h1
  · exact load_excel_skip_and_empty_behavior.2.2.1 _ (by simp)

/-- An Excel file whose stem parses to temperature 25 but whose data rows
are all NaN. -/
def allNaNRecord : RawRecord := RawRecord.mk "25" (ReadOutcome.okRows [(none, none)])

/-- Claim C6, counterexample: a record whose cleaned (NaN-rows-dropped)
arrays are empty is NOT discarded — it is stored with empty arrays, so the
mapping is non-empty and ingestion succeeds instead of failing with
`NoDataError` as the claim would require. -/
theorem all_nan_record_stored_not_discarded :
    load_excel [allNaNRecord] = Except.ok [(25, Curve.mk [] [])] := by
  have hx : extract_temperature "25" = some 25 := by decide
  simp [load_excel, allNaNRecord, loadStep, hx, cleanRows, dictSet]

theorem tableLookup_some_mem_keys {α : Type} (l : List (ℚ × α)) (T : ℚ) (v : α)
    (h : tableLookup l T = some v) : T ∈ dictKeys l := by
  induction l with
  | nil => simp [tableLookup] at h
  | cons hd tl ih =>
    obtain ⟨k0, v0⟩ := hd
    by_cases hk : k0 = T
    · simp [dictKeys, hk]
    · rw [tableLookup_cons, if_neg hk] at h
      simp [dictKeys]
      right
      have := ih h
      simpa [dictKeys] using this

theorem tableLookup_filterMap_match {β : Type} (l : List (ℚ × Curve)) (g : ℚ → Option ℝ)
    (F : ℚ → Curve → ℝ → β) (T : ℚ) (c : Curve) (aT : ℝ)
    (hl : tableLookup l T = some c) (hg : g T = some aT) :
    tableLookup (l.filterMap fun Tc =>
      match g Tc.1 with
      | some a => some (Tc.1, F Tc.1 Tc.2 a)
      | none => none) T = some (F T c aT) := by
  induction l with
  | nil => simp [tableLookup] at hl
  | cons hd tl ih =>
    obtain ⟨k0, c0⟩ := hd
    rw [List.filterMap_cons]
    by_cases hk : k0 = T
    · subst hk
      have hc0 : c0 = c := by simpa [tableLookup] using hl
      subst hc0
      simp [hg, tableLookup]
    · rw [tableLookup_cons, if_neg hk] at hl
      cases hgk : g k0 with
      | none => simpa [hgk] using ih hl
      | some a => simpa [hgk, tableLookup, hk] using ih hl

/-- Claim C7: for every dataset temperature `T` carrying a factor `aT` in
the effective table, the assembled master curve shifts the ω array to
`ω * aT` elementwise and leaves the modulus array unchanged; the assembled
factor entry is `(aT, log10 aT)`; the exported `'Shift Factors'` sheet
contains the same `(T, aT, log10 aT)` triple; and every exported
`'Master Curve Data'` row for `T` carries that same `aT`, `log10 aT`, and
`ω·aT = ω * aT` for its sample. -/
theorem master_curve_horizontal_shift (s : TTSState) (T : ℚ) (c : Curve) (aT : ℝ)
    (hdata : tableLookup s.data T = some c)
    (hfac : tableLookup (effectiveFactors s) T = some aT) :
    tableLookup (get_master_curve_data s).shifted T =
      some (CurveR.mk (c.omega.map fun w => (w : ℝ) * aT) (c.modulus.map fun m => (m : ℝ)))
    ∧ tableLookup (get_master_curve_data s).factors T = some (aT, Real.logb 10 aT)
    ∧ (T, aT, Real.logb 10 aT) ∈ shiftFactorRows s
    ∧ (∀ row ∈ masterCurveRows s, row.temperature = T →
        row.aT = aT ∧ row.log_aT = Real.logb 10 aT
          ∧ row.omega_aT = (row.omega : ℝ) * aT) := by
  refine ⟨?_, ?_, ?_, ?_⟩
  · simp only [get_master_curve_data]
    exact tableLookup_filterMap_match s.data (fun x => tableLookup (effectiveFactors s) x)
      (fun T0 c0 a => CurveR.mk (c0.omega.map fun w => (w : ℝ) * a)
        (c0.modulus.map fun m => (m : ℝ))) T c aT hdata hfac
  · simp only [get_master_curve_data]
    exact tableLookup_filterMap_match s.data (fun x => tableLookup (effectiveFactors s) x)
      (fun T0 _ a => (a, Real.logb 10 a)) T c aT hdata hfac
  · have hTk : T ∈ dictKeys (effectiveFactors s) :=
      tableLookup_some_mem_keys _ _ _ hfac
    simp only [shiftFactorRows]
    apply List.mem_filterMap.mpr
    exact ⟨T, (mem_sortKeys _ _).mpr hTk, by simp [hfac]⟩
  · intro row hrow hT
    simp only [masterCurveRows] at hrow
    obtain ⟨T2, hT2, hrow2⟩ := List.mem_flatMap.mp hrow
    cases hdt : tableLookup s.data T2 with
    | none => rw [hdt] at hrow2; cases hrow2
    | some c2 =>
      rw [hdt] at hrow2
      obtain ⟨om, hom, heq⟩ := List.mem_map.mp hrow2
      have hTT : T2 = T := by rw [← hT, ← heq]
      subst hTT
      have hget : (tableLookup (effectiveFactors s) T2).getD 1.0 = aT := by
        rw [hfac]
        rfl
      rw [← heq]
      simp [hget]

theorem master_curve_horizontal_shift_witness :
    tableLookup exState.data 35 = some exCurve
    ∧ tableLookup (effectiveFactors exState) 35 = some (2 : ℝ)
    ∧ tableLookup (get_master_curve_data exState).shifted 35 =
        some (CurveR.mk (exCurve.omega.map fun w => (w : ℝ) * (2 : ℝ))
          (exCurve.modulus.map fun m => (m : ℝ)))
    ∧ tableLookup (get_master_curve_data exState).factors 35 =
        some ((2 : ℝ), Real.logb 10 (2 : ℝ))
    ∧ ((35 : ℚ), (2 : ℝ), Real.logb 10 (2 : ℝ)) ∈ shiftFactorRows exState := by
  have hdata : tableLookup exState.data 35 = some exCurve := by
    norm_num [exState, tableLookup]
  have hfac : tableLookup (effectiveFactors exState) 35 = some (2 : ℝ) := by
    norm_num [exState, effectiveFactors, tableLookup]
  have h := master_curve_horizontal_shift exState 35 exCurve 2 hdata hfac
  exact ⟨hdata, hfac, h.1, h.2.1, h.2.2.1⟩

/-- Spec-side: does a signed decimal number of the grammar `-?\d+\.?\d*`
begin at the head of the character list?  (A `-` counts only when a digit
follows.) -/
def startsNumber (cs : List Char) : Bool :=
  match cs with
  | [] => false
  | c :: rest =>
    c.isDigit || (c = '-' && (match rest with | d :: _ => d.isDigit | [] => false))

/-- Spec-side grammar: `cs` is exactly an unsigned decimal `\d+(\.\d*)?` —
one or more digits, optionally a dot followed by only digits. -/
def isUnsignedDecimal (cs : List Char) : Bool :=
  match cs with
  | [] => false
  | c :: _ =>
    c.isDigit &&
      (match cs.dropWhile Char.isDigit with
       | [] => true
       | '.' :: fs => fs.all Char.isDigit
       | _ => false)

/-- Spec-side grammar: `cs` is exactly a signed decimal number
`-?\d+(\.\d*)?`. -/
def isSignedDecimal (cs : List Char) : Bool :=
  match cs with
  | [] => false
  | c :: rest => if c = '-' then isUnsignedDecimal rest else isUnsignedDecimal (c :: rest)

/-- Spec-side: the match `num` is maximal at its position — the following
text neither continues the digit run nor opens a fractional part. -/
def greedyBoundary (num rest : List Char) : Prop :=
  match rest with
  | [] => True
  | c :: _ => c.isDigit = false ∧ ('.' ∈ num ∨ c ≠ '.')

/-- Spec-side contract of temperature extraction, in the words of the spec:
`v` is the value of the first signed decimal number (optionally with a
fractional part) appearing in the string — a grammar match before which no
position starts a number, taken greedily. -/
def FirstNumberSpec (s : String) (v : ℚ) : Prop :=
  ∃ pre num rest, s.data = pre ++ num ++ rest
    ∧ isSignedDecimal num = true
    ∧ v = ratOfNumChars num
    ∧ (∀ i, i < pre.length → startsNumber (s.data.drop i) = false)
    ∧ greedyBoundary num rest

theorem dropWhile_head_not (p : Char → Bool) (l : List Char) (c : Char) (l2 : List Char)
    (h : l.dropWhile p = c :: l2) : p c = false := by
  induction l with
  | nil => simp [List.dropWhile] at h
  | cons a as ih =>
    by_cases ha : p a
    · rw [List.dropWhile_cons_of_pos ha] at h
      exact ih h
    · rw [List.dropWhile_cons_of_neg ha] at h
      cases h
      simpa using ha

theorem dropWhile_append_of_all (p : Char → Bool) (l1 l2 : List Char)
    (h : ∀ x ∈ l1, p x = true) : (l1 ++ l2).dropWhile p = l2.dropWhile p := by
  induction l1 with
  | nil => rfl
  | cons a as ih =>
    rw [List.cons_append, List.dropWhile_cons_of_pos (h a (List.mem_cons_self a as))]
    exact ih (fun x hx => h x (List.mem_cons_of_mem a hx))

theorem dropWhile_eq_nil_of_all (p : Char → Bool) (l : List Char)
    (h : ∀ x ∈ l, p x = true) : l.dropWhile p = [] := by
  have := dropWhile_append_of_all p l [] h
  simpa using this

theorem matchUnsigned_cons_none (c : Char) (rest : List Char)
    (h : matchUnsigned (c :: rest) = none) : c.isDigit = false := by
  by_cases hd : c.isDigit
  · exfalso
    rw [matchUnsigned] at h
    rw [if_pos hd] at h
    revert h
    split <;> simp
  · simpa using hd

theorem isUnsignedDecimal_intro (ds tail : List Char) (hne : ds ≠ [])
    (hds : ∀ x ∈ ds, x.isDigit = true)
    (htail : tail = [] ∨ ∃ fs, tail = '.' :: fs ∧ fs.all Char.isDigit = true) :
    isUnsignedDecimal (ds ++ tail) = true := by
  cases ds with
  | nil => exact absurd rfl hne
  | cons d ds0 =>
    have hd : d.isDigit = true := hds d (List.mem_cons_self d ds0)
    have hdrop : ((d :: ds0) ++ tail).dropWhile Char.isDigit = tail.dropWhile Char.isDigit :=
      dropWhile_append_of_all _ _ _ hds
    rcases htail with h | ⟨fs, hfs, hall⟩
    · subst h
      unfold isUnsignedDecimal
      rw [List.cons_append]
      simp only [← List.cons_append, hdrop]
      simp [hd]
    · subst hfs
      have hdot : (('.' : Char) :: fs).dropWhile Char.isDigit = '.' :: fs :=
        List.dropWhile_cons_of_neg (by decide)
      unfold isUnsignedDecimal
      rw [List.cons_append]
      simp only [← List.cons_append, hdrop, hdot]
      simp [hd, hall]

theorem matchUnsigned_sound (cs m r : List Char)
    (h : matchUnsigned cs = some (m, r)) :
    cs = m ++ r ∧ isUnsignedDecimal m = true ∧ greedyBoundary m r := by
  cases cs with
  | nil => simp [matchUnsigned] at h
  | cons c cs0 =>
    have hd : c.isDigit = true := by
      by_cases hd : c.isDigit
      · exact hd
      · exfalso
        rw [matchUnsigned] at h
        rw [if_neg hd] at h
        cases h
    rw [matchUnsigned] at h
    rw [if_pos hd] at h
    have hall : ∀ x ∈ (c :: cs0).takeWhile Char.isDigit, x.isDigit = true :=
      fun x hx => List.mem_takeWhile_imp hx
    have htne : (c :: cs0).takeWhile Char.isDigit ≠ [] := by
      rw [List.takeWhile_cons_of_pos hd]
      simp
    cases hrest : (c :: cs0).dropWhile Char.isDigit with
    | nil =>
      rw [hrest] at h
      injection h with h1
      injection h1 with hm hr
      subst hm
      subst hr
      refine ⟨?_, ?_, trivial⟩
      · have := List.takeWhile_append_dropWhile (p := Char.isDigit) (l := c :: cs0)
        rw [hrest] at this
        simpa using this.symm
      · have := isUnsignedDecimal_intro _ [] htne hall (Or.inl rfl)
        simpa using this
    | cons r0 r2 =>
      by_cases hr0 : r0 = '.'
      · subst hr0
        rw [hrest] at h
        injection h with h1
        injection h1 with hm hr
        subst hm
        subst hr
        have hallr2 : ∀ x ∈ r2.takeWhile Char.isDigit, x.isDigit = true :=
          fun x hx => List.mem_takeWhile_imp hx
        refine ⟨?_, ?_, ?_⟩
        · have h1 := List.takeWhile_append_dropWhile (p := Char.isDigit) (l := c :: cs0)
          rw [hrest] at h1
          have h2 := List.takeWhile_append_dropWhile (p := Char.isDigit) (l := r2)
          calc c :: cs0 = (c :: cs0).takeWhile Char.isDigit ++ '.' :: r2 := h1.symm
            _ = (c :: cs0).takeWhile Char.isDigit ++ '.' ::
                  (r2.takeWhile Char.isDigit ++ r2.dropWhile Char.isDigit) := by rw [h2]
            _ = ((c :: cs0).takeWhile Char.isDigit ++ '.' :: r2.takeWhile Char.isDigit) ++
                  r2.dropWhile Char.isDigit := by simp
        · exact isUnsignedDecimal_intro _ _ htne hall
            (Or.inr ⟨r2.takeWhile Char.isDigit, rfl,
              List.all_eq_true.mpr (fun x hx => hallr2 x hx)⟩)
        · cases hdw : r2.dropWhile Char.isDigit with
          | nil => exact trivial
          | cons d2 l2 =>
            refine ⟨dropWhile_head_not _ _ _ _ hdw, Or.inl ?_⟩
            exact List.mem_append.mpr (Or.inr (List.mem_cons_self _ _))
      · rw [hrest] at h
        rw [show (match r0 :: r2 with
              | '.' :: r2 => some ((c :: cs0).takeWhile Char.isDigit ++
                  '.' :: r2.takeWhile Char.isDigit, r2.dropWhile Char.isDigit)
              | rest => some ((c :: cs0).takeWhile Char.isDigit, rest)) =
            some ((c :: cs0).takeWhile Char.isDigit, r0 :: r2) from by
          split
          · rename_i heq
            injection heq with he1 he2
            exact absurd he1 hr0
          · rfl] at h
        injection h with h1
        injection h1 with hm hr
        subst hm
        subst hr
        refine ⟨?_, ?_, ?_⟩
        · have := List.takeWhile_append_dropWhile (p := Char.isDigit) (l := c :: cs0)
          rw [hrest] at this
          exact this.symm
        · have := isUnsignedDecimal_intro _ [] htne hall (Or.inl rfl)
          simpa using this
        · exact ⟨dropWhile_head_not _ _ _ _ hrest, Or.inr hr0⟩

theorem isUnsignedDecimal_head (c : Char) (rest : List Char)
    (h : isUnsignedDecimal (c :: rest) = true) : c.isDigit = true := by
  rw [isUnsignedDecimal] at h
  simp only [Bool.and_eq_true] at h
  exact h.1

theorem isSignedDecimal_of_unsigned (m : List Char) (h : isUnsignedDecimal m = true) :
    isSignedDecimal m = true := by
  cases m with
  | nil => simp [isUnsignedDecimal] at h
  | cons c rest =>
    have hd := isUnsignedDecimal_head c rest h
    have hne : ¬ c = '-' := by
      intro hc
      rw [hc] at hd
      exact absurd hd (by decide)
    rw [isSignedDecimal]
    rw [if_neg hne]
    exact h

theorem greedyBoundary_cons (c : Char) (m rest : List Char)
    (h : greedyBoundary m rest) : greedyBoundary (c :: m) rest := by
  cases rest with
  | nil => exact trivial
  | cons d l =>
    exact ⟨h.1, h.2.elim (fun hm => Or.inl (List.mem_cons_of_mem c hm)) Or.inr⟩

theorem matchNumAt_sound (cs m r : List Char) (h : matchNumAt cs = some (m, r)) :
    cs = m ++ r ∧ isSignedDecimal m = true ∧ greedyBoundary m r := by
  cases cs with
  | nil => simp [matchNumAt] at h
  | cons c rest =>
    by_cases hc : c = '-'
    · rw [matchNumAt] at h
      rw [if_pos hc] at h
      cases hmu : matchUnsigned rest with
      | none => rw [hmu] at h; cases h
      | some p =>
        obtain ⟨m0, r0⟩ := p
        rw [hmu] at h
        injection h with h1
        injection h1 with hm hr
        subst hm
        subst hr
        obtain ⟨he, hu, hg⟩ := matchUnsigned_sound rest m0 r0 hmu
        refine ⟨by rw [he]; rfl, ?_, greedyBoundary_cons c m0 r0 hg⟩
        rw [isSignedDecimal]
        rw [if_pos hc]
        exact hu
    · rw [matchNumAt] at h
      rw [if_neg hc] at h
      obtain ⟨he, hu, hg⟩ := matchUnsigned_sound _ _ _ h
      exact ⟨he, isSignedDecimal_of_unsigned _ hu, hg⟩

theorem matchNumAt_none_not_starts (cs : List Char) (h : matchNumAt cs = none) :
    startsNumber cs = false := by
  cases cs with
  | nil => rfl
  | cons c rest =>
    by_cases hc : c = '-'
    · subst hc
      rw [matchNumAt] at h
      rw [if_pos rfl] at h
      cases hmu : matchUnsigned rest with
      | some p =>
        obtain ⟨m0, r0⟩ := p
        rw [hmu] at h
        cases h
      | none =>
        cases rest with
        | nil => decide
        | cons d rest2 =>
          have hd : d.isDigit = false := matchUnsigned_cons_none d rest2 hmu
          simp [startsNumber, hd]
    · rw [matchNumAt] at h
      rw [if_neg hc] at h
      have hd : c.isDigit = false := matchUnsigned_cons_none c rest h
      simp [startsNumber, hd, hc]

theorem findNumber_none_iff (cs : List Char) :
    findNumber cs = none ↔ ∀ d ∈ cs, d.isDigit = false := by
  induction cs with
  | nil => simp [findNumber]
  | cons c rest ih =>
    constructor
    · intro h
      cases hm : matchNumAt (c :: rest) with
      | some p =>
        rw [findNumber, hm] at h
        cases h
      | none =>
        rw [findNumber, hm] at h
        intro d hd
        rcases List.mem_cons.mp hd with hdc | hdr
        · subst hdc
          by_cases hc : d = '-'
          · rw [hc]
            decide
          · rw [matchNumAt] at hm
            rw [if_neg hc] at hm
            exact matchUnsigned_cons_none d rest hm
        · exact ih.mp h d hdr
    · intro h
      have hm : matchNumAt (c :: rest) = none := by
        by_cases hc : c = '-'
        · rw [matchNumAt, if_pos hc]
          cases rest with
          | nil => rfl
          | cons d rest2 =>
            have hd : d.isDigit = false :=
              h d (List.mem_cons_of_mem c (List.mem_cons_self d rest2))
            have hmu : matchUnsigned (d :: rest2) = none := by
              rw [matchUnsigned]
              rw [if_neg (by simp [hd])]
            rw [hmu]
        · rw [matchNumAt, if_neg hc]
          have hcd : c.isDigit = false := h c (List.mem_cons_self c rest)
          rw [matchUnsigned]
          rw [if_neg (by simp [hcd])]
      rw [findNumber, hm]
      exact ih.mpr (fun d hd => h d (List.mem_cons_of_mem c hd))

theorem findNumber_sound (cs m : List Char) (h : findNumber cs = some m) :
    ∃ pre rest, cs = pre ++ m ++ rest
      ∧ isSignedDecimal m = true
      ∧ greedyBoundary m rest
      ∧ (∀ i, i < pre.length → startsNumber (cs.drop i) = false) := by
  induction cs with
  | nil => simp [findNumber] at h
  | cons c cs0 ih =>
    cases hm : matchNumAt (c :: cs0) with
    | some p =>
      obtain ⟨m0, r⟩ := p
      rw [findNumber, hm] at h
      injection h with hmm
      subst hmm
      obtain ⟨he, hs, hg⟩ := matchNumAt_sound _ _ _ hm
      refine ⟨[], r, by simpa using he, hs, hg, ?_⟩
      intro i hi
      simp at hi
    | none =>
      rw [findNumber, hm] at h
      obtain ⟨pre0, rest, he, hs, hg, hpre⟩ := ih h
      refine ⟨c :: pre0, rest, by rw [List.cons_append, List.cons_append, ← he], hs, hg, ?_⟩
      intro i hi
      cases i with
      | zero => simpa using matchNumAt_none_not_starts _ hm
      | succ j =>
        have hj : j < pre0.length := by simpa using hi
        simpa using hpre j hj

theorem isSignedDecimal_has_digit (num : List Char) (h : isSignedDecimal num = true) :
    ∃ d ∈ num, d.isDigit = true := by
  cases num with
  | nil => simp [isSignedDecimal] at h
  | cons c rest =>
    rw [isSignedDecimal] at h
    by_cases hc : c = '-'
    · rw [if_pos hc] at h
      cases rest with
      | nil => simp [isUnsignedDecimal] at h
      | cons d rest2 =>
        exact ⟨d, List.mem_cons_of_mem c (List.mem_cons_self d rest2),
          isUnsignedDecimal_head d rest2 h⟩
    · rw [if_neg hc] at h
      exact ⟨c, List.mem_cons_self c rest, isUnsignedDecimal_head c rest h⟩

theorem isSignedDecimal_singleton_digit (d : Char) (hd : d.isDigit = true) :
    isSignedDecimal [d] = true := by
  apply isSignedDecimal_of_unsigned
  have h := isUnsignedDecimal_intro [d] [] (by simp)
    (by intro x hx; rw [List.mem_singleton.mp hx]; exact hd) (Or.inl rfl)
  simpa using h

theorem decomp_iff_digit (l : List Char) :
    (∃ pre num rest, l = pre ++ num ++ rest ∧ isSignedDecimal num = true) ↔
      ∃ d ∈ l, d.isDigit = true := by
  constructor
  · rintro ⟨pre, num, rest, hl, hs⟩
    obtain ⟨d, hd, hdig⟩ := isSignedDecimal_has_digit num hs
    refine ⟨d, ?_, hdig⟩
    rw [hl]
    exact List.mem_append.mpr (Or.inl (List.mem_append.mpr (Or.inr hd)))
  · rintro ⟨d, hd, hdig⟩
    obtain ⟨s1, s2, hl⟩ := List.append_of_mem hd
    exact ⟨s1, [d], s2, by simpa using hl, isSignedDecimal_singleton_digit d hdig⟩

/-- Claim C8: temperature extraction returns exactly the value of the first
signed decimal number (optionally with a fractional part) appearing in the
label string — a grammar match, taken greedily, before which no position of
the string starts a number; it returns `none` precisely when the string
contains no numeric substring, in which case `load_excel` skips the
record. -/
theorem extract_temperature_first_number (s : String) :
    (extract_temperature s = none ↔
      ¬ ∃ pre num rest, s.data = pre ++ num ++ rest ∧ isSignedDecimal num = true)
    ∧ (∀ v, extract_temperature s = some v → FirstNumberSpec s v)
    ∧ (∀ (d : List (ℚ × Curve)) (r : RawRecord),
        extract_temperature r.stem = none → loadStep d r = d) := by
  refine ⟨?_, ?_, ?_⟩
  · constructor
    · intro h hex
      have hfn : findNumber s.data = none := by
        cases hfn : findNumber s.data with
        | none => rfl
        | some m =>
          rw [extract_temperature, hfn] at h
          cases h
      have hnod := (findNumber_none_iff _).mp hfn
      obtain ⟨d, hd, hdig⟩ := (decomp_iff_digit _).mp hex
      rw [hnod d hd] at hdig
      cases hdig
    · intro hnex
      have hall : ∀ d ∈ s.data, d.isDigit = false := by
        intro d hd
        by_cases hdig : d.isDigit
        · exact absurd ((decomp_iff_digit _).mpr ⟨d, hd, hdig⟩) hnex
        · simpa using hdig
      rw [extract_temperature, (findNumber_none_iff _).mpr hall]
      rfl
  · intro v hv
    rw [extract_temperature] at hv
    cases hfn : findNumber s.data with
    | none =>
      rw [hfn] at hv
      cases hv
    | some m =>
      rw [hfn] at hv
      injection hv with hv1
      obtain ⟨pre, rest, he, hs, hg, hpre⟩ := findNumber_sound _ _ hfn
      exact ⟨pre, m, rest, he, hs, hv1.symm, hpre, hg⟩
  · intro d r h
    simp [loadStep, h]

theorem extract_temperature_first_number_witness :
    extract_temperature "T-25.5C" = some (mkRat (-51) 2)
    ∧ FirstNumberSpec "T-25.5C" (mkRat (-51) 2) := by
  have h : extract_temperature "T-25.5C" = some (mkRat (-51) 2) := by decide
  exact ⟨h, (extract_temperature_first_number "T-25.5C").2.1 _ h⟩
